import Mathlib

/-!
Verification of the mini-qiankun micro-frontend framework
(file mini-qiankun3.js and companion variants).

The model is a shallow embedding of the JavaScript source:

* `reroute`, `unmountApp`, `loadAndMountApp`, `registerMicroApps`,
  `patchRouter`, `parseHtml`, the style scoper inside `loadStyles` and the
  proxy sandbox of `createSandbox` are each translated into executable Lean
  definitions over explicit state.
* `loadAndMountApp` is an `async` function: everything before
  `await fetch(app.entry)` runs synchronously inside `reroute`
  (`loadPhase1`), everything after the fetch resolves runs later
  (`completeBody`).  In-flight loads are kept in a `pending` list, and a
  scheduler (`runActs`) can interleave navigations with fetch completions,
  the way the browser event loop can.  `rerouteToCompletion` is the
  sequential special case in which a navigation's load settles before the
  next navigation arrives.
* Lifecycle hook invocations and entry fetches are recorded in an event
  trace; hooks themselves are modelled as synchronous host-supplied
  functions, which is how the source invokes them (no `await` on either
  `mount` or `unmount`).
-/

/-- A registered application descriptor: `{name, entry, container, activeRule}`
as passed to `registerMicroApps`. -/
structure App where
  name : String
  entry : String
  container : String
  activeRule : String
deriving DecidableEq

/-- Facts about the host environment that the source reads but does not
change: whether `document.querySelector(sel)` finds a container, and whether
the application's scripts install `mount` / `unmount` hooks on
`sandbox.global[name]`. -/
structure Env where
  containerOk : String → Bool
  hasMount : String → Bool
  hasUnmount : String → Bool

/-- Observable events: the fetch of an entry document and the invocation of
the lifecycle hooks. -/
inductive Event where
  | fetch (url : String)
  | unmountHook (name : String)
  | mountHook (name : String)
deriving DecidableEq

/-- Orchestrator state: the registry `apps`, the `activeApp` reference, the
document content `dom` (pairs of container selector and the name of the
application whose element is attached there), the key set of
`sandbox.global`, and the in-flight `loadAndMountApp` continuations that
are suspended on their entry fetch. -/
structure MicroState where
  apps : List App
  activeApp : Option App
  dom : List (String × String)
  sandboxNames : List String
  pending : List App
deriving DecidableEq

/-- The state right after registration, before any navigation. -/
def initState (apps : List App) : MicroState :=
  { apps := apps, activeApp := none, dom := [], sandboxNames := [], pending := [] }

/-- JS `pathname.startsWith(app.activeRule)`. -/
def pathMatches (pathname rule : String) : Bool :=
  rule.toList.isPrefixOf pathname.toList

/-- `apps.find(app => pathname.startsWith(app.activeRule))`. -/
def matchedApp (apps : List App) (pathname : String) : Option App :=
  apps.find? (fun app => pathMatches pathname app.activeRule)

/-- `container.innerHTML = ''`: every element attached under the container is
removed. -/
def clearDom (c : String) (dom : List (String × String)) : List (String × String) :=
  dom.filter (fun e => e.1 ≠ c)

/-- Names of the applications whose content is currently attached in the
document. -/
def mountedNames (s : MicroState) : List String :=
  s.dom.map Prod.snd

/-- `unmountApp(app)`: if the container exists, invoke the unmount hook when
`sandbox.global[app.name]` holds one, clear the container and delete the
sandbox entry; in every case clear `activeApp`. -/
def unmountApp (env : Env) (app : App) (s : MicroState) : MicroState × List Event :=
  if env.containerOk app.container then
    ({ s with
        dom := clearDom app.container s.dom,
        sandboxNames := s.sandboxNames.filter (fun n => n ≠ app.name),
        activeApp := none },
     if s.sandboxNames.contains app.name && env.hasUnmount app.name then
       [Event.unmountHook app.name]
     else [])
  else ({ s with activeApp := none }, [])

/-- The synchronous beginning of `loadAndMountApp`: look up the container
(return early when absent), clear it, and start `fetch(app.entry)`; the rest
of the function is suspended on that fetch and recorded in `pending`. -/
def loadPhase1 (env : Env) (app : App) (s : MicroState) : MicroState × List Event :=
  if env.containerOk app.container then
    ({ s with dom := clearDom app.container s.dom, pending := s.pending ++ [app] },
     [Event.fetch app.entry])
  else (s, [])

/-- `reroute()`: match the current path against the registry; return without
work when nothing matches or the matched name equals the active name;
otherwise unmount the active application, set `activeApp` to the match and
begin `loadAndMountApp` (whose post-fetch part stays pending). -/
def reroute (env : Env) (pathname : String) (s : MicroState) : MicroState × List Event :=
  match matchedApp s.apps pathname, s.activeApp with
  | none, _ => (s, [])
  | some m, some a =>
    if a.name = m.name then (s, [])
    else
      let r1 := unmountApp env a s
      let r2 := loadPhase1 env m { r1.1 with activeApp := some m }
      (r2.1, r1.2 ++ r2.2)
  | some m, none =>
    let r2 := loadPhase1 env m { s with activeApp := some m }
    (r2.1, r2.2)

/-- The rest of `loadAndMountApp` after `fetch(app.entry)` resolves: append
the application's element to its container (`appendChild`), run its scripts
(which re-creates `sandbox.global[app.name]`), and invoke the mount hook
when the scripts installed one. -/
def completeBody (env : Env) (app : App) (s : MicroState) : MicroState × List Event :=
  ({ s with
      dom := s.dom ++ [(app.container, app.name)],
      sandboxNames := s.sandboxNames.filter (fun n => n ≠ app.name) ++ [app.name] },
   if env.hasMount app.name then [Event.mountHook app.name] else [])

/-- Complete a list of in-flight loads in order. -/
def drainGo (env : Env) : List App → MicroState → MicroState × List Event
  | [], s => (s, [])
  | a :: rest, s =>
    let r1 := completeBody env a s
    let r2 := drainGo env rest r1.1
    (r2.1, r1.2 ++ r2.2)

/-- Let every in-flight load settle. -/
def drain (env : Env) (s : MicroState) : MicroState × List Event :=
  drainGo env s.pending { s with pending := [] }

/-- Process one navigation notification to completion: run `reroute` and let
the load it may have started settle before anything else happens. -/
def rerouteToCompletion (env : Env) (pathname : String) (s : MicroState) :
    MicroState × List Event :=
  let r1 := reroute env pathname s
  let r2 := drain env r1.1
  (r2.1, r1.2 ++ r2.2)

/-- A sequence of navigations processed sequentially (each one settles before
the next arrives). -/
def runSeq (env : Env) (paths : List String) (s : MicroState) : MicroState × List Event :=
  match paths with
  | [] => (s, [])
  | p :: rest =>
    let r1 := rerouteToCompletion env p s
    let r2 := runSeq env rest r1.1
    (r2.1, r1.2 ++ r2.2)

/-- An event-loop action: a navigation notification, or the completion of the
i-th in-flight entry fetch. -/
inductive NavAct where
  | nav (p : String)
  | complete (i : Nat)

/-- One event-loop step. -/
def actStep (env : Env) (s : MicroState) : NavAct → MicroState × List Event
  | NavAct.nav p => reroute env p s
  | NavAct.complete i =>
    match s.pending[i]? with
    | none => (s, [])
    | some app => completeBody env app { s with pending := s.pending.eraseIdx i }

/-- Run a list of event-loop actions. -/
def runActs (env : Env) : List NavAct → MicroState → MicroState × List Event
  | [], s => (s, [])
  | a :: rest, s =>
    let r1 := actStep env s a
    let r2 := runActs env rest r1.1
    (r2.1, r1.2 ++ r2.2)

/-- The two applications of the spec's scenario section. -/
def appA : App :=
  { name := "a", entry := "http://x/a", container := "#c", activeRule := "/a" }

/-- Second scenario application. -/
def appB : App :=
  { name := "b", entry := "http://x/b", container := "#c", activeRule := "/b" }

/-- An environment in which both containers exist and both applications
install both hooks. -/
def env0 : Env :=
  { containerOk := fun _ => true, hasMount := fun _ => true, hasUnmount := fun _ => true }

/-- The state after registering `appA`, `appB` and navigating to `/a`, with
the load settled: `appA` is active and mounted. -/
def sAB : MicroState := (rerouteToCompletion env0 "/a" (initState [appA, appB])).1

/-- Is the event a mount-hook invocation? -/
def isMountEv : Event → Bool
  | Event.mountHook _ => true
  | _ => false

/-- Is the event an unmount-hook invocation? -/
def isUnmountEv : Event → Bool
  | Event.unmountHook _ => true
  | _ => false

/-- `true` iff no unmount-hook invocation occurs at or after any mount-hook
invocation, i.e. every unmount event strictly precedes every mount event. -/
def unmountsPrecedeMounts : List Event → Bool
  | [] => true
  | e :: rest =>
    ((!isMountEv e) || rest.all (fun x => !isUnmountEv x)) && unmountsPrecedeMounts rest

/-- Invariant of sequentially processed navigations: no load is in flight,
and the document holds either nothing or exactly the active application's
element in its (existing) container. -/
def SeqInv (env : Env) (s : MicroState) : Prop :=
  s.pending = [] ∧
  (s.dom = [] ∨ ∃ a, s.activeApp = some a ∧ s.dom = [(a.container, a.name)] ∧
    env.containerOk a.container = true)

/-- `registerMicroApps(app)`: `apps.push(app)` — an unconditional append, with
no duplicate-name check and no failure path. -/
def registerMicroApps (app : App) (apps : List App) : List App :=
  apps ++ [app]

/-- Register a batch of descriptors in order. -/
def registerAll (l : List App) (apps : List App) : List App :=
  l.foldl (fun acc a => registerMicroApps a acc) apps

/-- `window.history.pushState` / `replaceState`: either the browser-native
function or a wrapper installed by `patchRouter` around some inner
function. -/
inductive HistFn where
  | native
  | wrapped (inner : HistFn)
deriving DecidableEq

/-- How many `reroute()` notifications one invocation of this history
function fires: the native function fires none, and each wrapper layer calls
the inner function and then fires one. -/
def rerouteCallsPerInvoke : HistFn → Nat
  | HistFn.native => 0
  | HistFn.wrapped f => rerouteCallsPerInvoke f + 1

/-- The navigation-interception state: the current `pushState` and
`replaceState` functions and the number of registered `popstate`
listeners. -/
structure RouterState where
  pushState : HistFn
  replaceState : HistFn
  popstateListeners : Nat
deriving DecidableEq

/-- `patchRouter()`: reads the CURRENT `pushState`/`replaceState` (which may
already be wrappers), installs a new wrapper around each, and adds another
`popstate` listener. -/
def patchRouter (r : RouterState) : RouterState :=
  { pushState := HistFn.wrapped r.pushState,
    replaceState := HistFn.wrapped r.replaceState,
    popstateListeners := r.popstateListeners + 1 }

/-- The effect of one `start()` call on the router state: `start` calls
`patchRouter()` unconditionally (its other work — `createSandbox()` and the
initial `reroute()` — does not touch the router). -/
def startRouterEffect : RouterState → RouterState := patchRouter

/-- `n` consecutive `start()` calls. -/
def startN : Nat → RouterState → RouterState
  | 0, r => r
  | n + 1, r => startN n (startRouterEffect r)

/-- The router before `start()` is ever called. -/
def initRouter : RouterState :=
  { pushState := HistFn.native, replaceState := HistFn.native, popstateListeners := 0 }

/-- JavaScript values as far as the sandbox handlers inspect them: the `set`
handler only asks `typeof value !== 'function'`, the `get` handler asks
`typeof value === 'object'` (modelled values are otherwise opaque). -/
inductive JSValue where
  | undef
  | boolV (b : Bool)
  | numV (n : Int)
  | strV (s : String)
  | fnV (id : Nat)
  | objV (id : Nat)
deriving DecidableEq

/-- `typeof value === 'function'`. -/
def JSValue.isFunctionV : JSValue → Bool
  | JSValue.fnV _ => true
  | _ => false

/-- A JS object as a property map (insertion ordered, as JS objects are). -/
abbrev Store := List (String × JSValue)

/-- Property lookup in an association list (first binding wins). -/
def assocFind {α : Type} (k : String) : List (String × α) → Option α
  | [] => none
  | e :: rest => if e.1 = k then some e.2 else assocFind k rest

/-- JS property assignment: overwrite in place or append a fresh key. -/
def storeSet (k : String) (v : JSValue) : Store → Store
  | [] => [(k, v)]
  | e :: rest => if e.1 = k then (k, v) :: rest else e :: storeSet k v rest

/-- `if (!global[appName]) global[appName] = {}; global[appName][prop] = value`. -/
def appStoreSet (n k : String) (v : JSValue) :
    List (String × Store) → List (String × Store)
  | [] => [(n, storeSet k v [])]
  | e :: rest => if e.1 = n then (n, storeSet k v e.2) :: rest else e :: appStoreSet n k v rest

/-- Sandbox state from `createSandbox()`: the per-application stores
(`sandbox.global`), the `sandboxWindow` object (a one-time shallow copy of
the host window plus the bookkeeping keys), and the host's true global
context, which the sandbox holds no reference to after the copy. -/
structure SandboxState where
  appStores : List (String × Store)
  sandboxWindow : Store
  hostWindow : Store
deriving DecidableEq

/-- `createSandbox()`: `global = {}` and
`sandboxWindow = {...window, __MICRO_APP_ENVIRONMENT__: true,
__MICRO_APP_NAME__: null, setGlobalState, getGlobalState}`. -/
def createSandbox (host : Store) : SandboxState :=
  { appStores := [],
    sandboxWindow :=
      storeSet "getGlobalState" (JSValue.fnV 1)
        (storeSet "setGlobalState" (JSValue.fnV 0)
          (storeSet "__MICRO_APP_NAME__" JSValue.undef
            (storeSet "__MICRO_APP_ENVIRONMENT__" (JSValue.boolV true) host))),
    hostWindow := host }

/-- What a property read through the proxy observes: either a value (possibly
handed out re-wrapped in a proxy over the same underlying object, which
reveals the same contents) or the sandbox proxy itself
(`window`/`self`/`globalThis`). -/
inductive GetResult where
  | val (v : JSValue)
  | sandboxSelf
deriving DecidableEq

/-- The proxy `set` handler: when an application name is bound and the value
is not a function, record the write in `global[appName]`; otherwise write
through to the target, the shared `sandboxWindow` object. -/
def proxySet (appName : Option String) (k : String) (v : JSValue)
    (s : SandboxState) : SandboxState :=
  match appName with
  | some n =>
    if v.isFunctionV then { s with sandboxWindow := storeSet k v s.sandboxWindow }
    else { s with appStores := appStoreSet n k v s.appStores }
  | none => { s with sandboxWindow := storeSet k v s.sandboxWindow }

/-- The proxy `get` handler: first consult `global[appName]`; otherwise read
the target (`sandboxWindow`), with `window`/`self`/`globalThis` answered by
the sandbox proxy itself.  (Object values are handed out wrapped in a proxy
over the same object; host-owned singletons such as `document` are passed
through raw — both observe the underlying value, which is what `val`
records.) -/
def proxyGet (appName : Option String) (k : String) (s : SandboxState) : GetResult :=
  match (match appName with
         | some n => (assocFind n s.appStores).bind (fun st => assocFind k st)
         | none => none) with
  | some v => GetResult.val v
  | none =>
    if k = "window" ∨ k = "self" ∨ k = "globalThis" then GetResult.sandboxSelf
    else GetResult.val ((assocFind k s.sandboxWindow).getD JSValue.undef)

/-- The character `>`. -/
def gtChar : Char := Char.ofNat 62

/-- The character `"`. -/
def quoteChar : Char := Char.ofNat 34

/-- All captures of the pattern `lit([^"]+)"` in the given character span,
in left-to-right order of the occurrence of `lit`. -/
def allCapsAfterLit (lit : List Char) : List Char → List (List Char)
  | [] => []
  | c :: rest =>
    let tail := allCapsAfterLit lit rest
    if lit.isPrefixOf (c :: rest) then
      let lAfter := (c :: rest).drop lit.length
      let cap := lAfter.takeWhile (fun ch => ch ≠ quoteChar)
      let lAfter2 := lAfter.dropWhile (fun ch => ch ≠ quoteChar)
      if cap.isEmpty || lAfter2.isEmpty then tail else cap :: tail
    else tail

/-- The suffixes following each occurrence of `rel="stylesheet"` in the span,
in document order. -/
def relSuffixes : List Char → List (List Char)
  | [] => []
  | c :: rest =>
    let tail := relSuffixes rest
    if ("rel=\"stylesheet\"".toList).isPrefixOf (c :: rest) then
      ((c :: rest).drop 16) :: tail
    else tail

/-- One attempted match of `/<script[^>]*src="([^"]+)"[^>]*><\/script>/` at
the head of the input: the tag span runs to the first `>`, which must be
immediately followed by `</script>`; the greedy `[^>]*` makes the LAST valid
`src="…"` occurrence in the span the one captured.  Returns the capture and
the input remaining after the match. -/
def tryScriptMatch (xs : List Char) : Option (List Char × List Char) :=
  if ("<script".toList).isPrefixOf xs then
    let afterTag := xs.drop 7
    let span := afterTag.takeWhile (fun ch => ch ≠ gtChar)
    let rest0 := afterTag.dropWhile (fun ch => ch ≠ gtChar)
    match rest0 with
    | [] => none
    | _ :: afterGt =>
      if ("</script>".toList).isPrefixOf afterGt then
        match (allCapsAfterLit ("src=\"".toList) span).getLast? with
        | some cap => some (cap, afterGt.drop 9)
        | none => none
      else none
  else none

/-- One attempted match of
`/<link[^>]*rel="stylesheet"[^>]*href="([^"]+)"[^>]*>/` at the head of the
input: the span runs to the first `>`; the greedy quantifiers select the
last `rel="stylesheet"` occurrence that is followed (within the span) by a
valid `href="…"`, and the last such `href` capture after it. -/
def tryLinkMatch (xs : List Char) : Option (List Char × List Char) :=
  if ("<link".toList).isPrefixOf xs then
    let afterTag := xs.drop 5
    let span := afterTag.takeWhile (fun ch => ch ≠ gtChar)
    let rest0 := afterTag.dropWhile (fun ch => ch ≠ gtChar)
    match rest0 with
    | [] => none
    | _ :: afterGt =>
      match ((relSuffixes span).filterMap
               (fun suf => (allCapsAfterLit ("href=\"".toList) suf).getLast?)).getLast? with
      | some cap => some (cap, afterGt)
      | none => none
  else none

/-- Repeated global matching (`regex.exec` in a loop): advance one character
on failure, continue after the match on success.  `fuel` is a recursion
bound; any `fuel` greater than the input length is exact. -/
def scanFor (tryM : List Char → Option (List Char × List Char)) :
    Nat → List Char → List (List Char)
  | 0, _ => []
  | _ + 1, [] => []
  | fuel + 1, c :: rest =>
    match tryM (c :: rest) with
    | some r => r.1 :: scanFor tryM fuel r.2
    | none => scanFor tryM fuel rest

/-- The `scripts` list of `parseHtml(html)`: captures of the external-script
regex, in document order, verbatim (no URL resolution). -/
def parseHtmlScripts (html : String) : List String :=
  (scanFor tryScriptMatch (html.toList.length + 1) html.toList).map (fun l => String.mk l)

/-- The `styles` list of `parseHtml(html)`: captures of the stylesheet-link
regex, in document order, verbatim. -/
def parseHtmlStyles (html : String) : List String :=
  (scanFor tryLinkMatch (html.toList.length + 1) html.toList).map (fun l => String.mk l)

/-- `parseHtml(html)` restricted to its `{scripts, styles}` result (the
`htmlContent` residue strips exactly the matched tags and is not needed by
any claim). -/
def parseHtml (html : String) : List String × List String :=
  (parseHtmlScripts html, parseHtmlStyles html)

/-- The left brace character. -/
def lbraceChar : Char := Char.ofNat 123

/-- The space character. -/
def spChar : Char := Char.ofNat 32

/-- `selector.includes(pat)`. -/
def hasSubstr (pat : List Char) : List Char → Bool
  | [] => pat.isEmpty
  | c :: rest => pat.isPrefixOf (c :: rest) || hasSubstr pat rest

/-- The replacement applied by `loadStyles` to one match `([^{]+)({)`: a
selector containing `@media` or `@keyframes` is emitted unchanged; any other
selector is emitted as `.micro-app-<appName> <selector> {`. -/
def scopeSelector (appName : String) (sel : List Char) : List Char :=
  if hasSubstr ("@media".toList) sel || hasSubstr ("@keyframes".toList) sel then
    sel ++ [lbraceChar]
  else
    ".micro-app-".toList ++ appName.toList ++ [spChar] ++ sel ++ [spChar, lbraceChar]

/-- Global replacement of `([^{]+)({)` over the stylesheet text: maximal
nonempty runs of non-brace characters followed by a brace are matches; an
opening brace preceded by no such run, and any trailing text, pass through
unchanged. -/
def scopeGo (appName : String) : List Char → List Char → List Char
  | [], acc => acc.reverse
  | c :: rest, acc =>
    if c = lbraceChar then
      if acc.isEmpty then c :: scopeGo appName rest []
      else scopeSelector appName acc.reverse ++ scopeGo appName rest []
    else scopeGo appName rest (c :: acc)

/-- The `scopedCss` computation inside `loadStyles(styles, appName)`:
`cssText.replace(/([^{]+)({)/g, …)`. -/
def scopedCss (cssText : String) (appName : String) : String :=
  String.mk (scopeGo appName cssText.toList [])

/-- Entry markup with two external scripts and one inline script (the spec's
asset-resolver scenario), plus an external stylesheet link and an inline
style block. -/
def htmlEx : String :=
  "<script src=\"./a.js\"></script><script>inline()</script><script src=\"b.js\"></script>"

/-- Entry markup with one stylesheet link, one inline style block and one
external script. -/
def htmlEx2 : String :=
  "<link rel=\"stylesheet\" href=\"s.css\"><style>.x\x7bc:d\x7d</style><script src=\"u/v.js\"></script>"

/-- A media-query block. -/
def mediaEx : String := "@media screen \x7b .btn \x7b color: red; \x7d \x7d"

lemma unmountApp_apps (env : Env) (a : App) (s : MicroState) :
    (unmountApp env a s).1.apps = s.apps := by
  unfold unmountApp; split <;> rfl

lemma unmountApp_pending (env : Env) (a : App) (s : MicroState) :
    (unmountApp env a s).1.pending = s.pending := by
  unfold unmountApp; split <;> rfl

lemma unmountApp_dom_nil (env : Env) (a : App) (s : MicroState) (h : s.dom = []) :
    (unmountApp env a s).1.dom = [] := by
  unfold unmountApp; split <;> simp [clearDom, h]

lemma unmountApp_dom_clear (env : Env) (a : App) (s : MicroState)
    (h : s.dom = [(a.container, a.name)]) (hca : env.containerOk a.container = true) :
    (unmountApp env a s).1.dom = [] := by
  unfold unmountApp; rw [if_pos hca]; simp [clearDom, h]

lemma loadPhase1_apps (env : Env) (m : App) (s : MicroState) :
    (loadPhase1 env m s).1.apps = s.apps := by
  unfold loadPhase1; split <;> rfl

lemma loadPhase1_activeApp (env : Env) (m : App) (s : MicroState) :
    (loadPhase1 env m s).1.activeApp = s.activeApp := by
  unfold loadPhase1; split <;> rfl

lemma drainGo_pending (env : Env) (l : List App) :
    ∀ s : MicroState, (drainGo env l s).1.pending = s.pending := by
  induction l with
  | nil => intro s; rfl
  | cons a rest ih =>
    intro s
    show (drainGo env rest (completeBody env a s).1).1.pending = s.pending
    rw [ih]; rfl

lemma drainGo_apps (env : Env) (l : List App) :
    ∀ s : MicroState, (drainGo env l s).1.apps = s.apps := by
  induction l with
  | nil => intro s; rfl
  | cons a rest ih =>
    intro s
    show (drainGo env rest (completeBody env a s).1).1.apps = s.apps
    rw [ih]; rfl

lemma drainGo_activeApp (env : Env) (l : List App) :
    ∀ s : MicroState, (drainGo env l s).1.activeApp = s.activeApp := by
  induction l with
  | nil => intro s; rfl
  | cons a rest ih =>
    intro s
    show (drainGo env rest (completeBody env a s).1).1.activeApp = s.activeApp
    rw [ih]; rfl

lemma drain_pending (env : Env) (s : MicroState) : (drain env s).1.pending = [] := by
  unfold drain; rw [drainGo_pending]

lemma micro_eta_pending (s : MicroState) (h : s.pending = []) :
    ({ s with pending := [] } : MicroState) = s := by
  cases s; simp_all

lemma drain_nil (env : Env) (s : MicroState) (h : s.pending = []) :
    drain env s = (s, []) := by
  unfold drain; rw [h]
  show ({ s with pending := [] }, ([] : List Event)) = (s, [])
  rw [micro_eta_pending s h]

lemma reroute_apps (env : Env) (p : String) (s : MicroState) :
    (reroute env p s).1.apps = s.apps := by
  rcases hm : matchedApp s.apps p with _ | m <;> rcases ha : s.activeApp with _ | a <;>
    simp [reroute, hm, ha, loadPhase1_apps, unmountApp_apps]
  split
  · rfl
  · simp [loadPhase1_apps, unmountApp_apps]

lemma reroute_active_name (env : Env) (p : String) (s : MicroState) (m : App)
    (hm : matchedApp s.apps p = some m) :
    ∃ a', (reroute env p s).1.activeApp = some a' ∧ a'.name = m.name := by
  rcases ha : s.activeApp with _ | a
  · exact ⟨m, by simp [reroute, hm, ha, loadPhase1_activeApp], rfl⟩
  · by_cases hn : a.name = m.name
    · exact ⟨a, by simp [reroute, hm, ha, hn], hn⟩
    · exact ⟨m, by simp [reroute, hm, ha, hn, loadPhase1_activeApp], rfl⟩

lemma not_mem_clearDom_key (c x : String) (d : List (String × String)) :
    (c, x) ∉ clearDom c d := by
  simp [clearDom, List.mem_filter]

lemma rerouteToCompletion_pending (env : Env) (p : String) (s : MicroState) :
    (rerouteToCompletion env p s).1.pending = [] := by
  show (drain env (reroute env p s).1).1.pending = []
  exact drain_pending env _

lemma mountFrom (env : Env) (m : App) (s₀ : MicroState)
    (hd : s₀.dom = []) (hp : s₀.pending = []) :
    (drain env (loadPhase1 env m { s₀ with activeApp := some m }).1).1.dom = [] ∨
    ((drain env (loadPhase1 env m { s₀ with activeApp := some m }).1).1.activeApp = some m ∧
     (drain env (loadPhase1 env m { s₀ with activeApp := some m }).1).1.dom =
       [(m.container, m.name)] ∧
     env.containerOk m.container = true) := by
  by_cases hcm : env.containerOk m.container
  · right
    refine ⟨?_, ?_, hcm⟩ <;>
      simp [loadPhase1, hcm, drain, hp, drainGo, completeBody, clearDom, hd]
  · left
    simp [loadPhase1, hcm, drain, hp, drainGo, hd]

lemma step_inv (env : Env) (p : String) (s : MicroState) (h : SeqInv env s) :
    SeqInv env (rerouteToCompletion env p s).1 := by
  obtain ⟨hp, hdom⟩ := h
  refine ⟨rerouteToCompletion_pending env p s, ?_⟩
  rcases hm : matchedApp s.apps p with _ | m
  · have h1 : reroute env p s = (s, []) := by simp [reroute, hm]
    have h2 : (rerouteToCompletion env p s).1 = s := by
      show (drain env (reroute env p s).1).1 = s
      rw [h1, drain_nil env s hp]
    rw [h2]; exact hdom
  · rcases ha : s.activeApp with _ | a
    · have hd0 : s.dom = [] := by
        rcases hdom with h | ⟨a', ha', _⟩
        · exact h
        · rw [ha] at ha'; cases ha'
      have hre : (reroute env p s).1 = (loadPhase1 env m { s with activeApp := some m }).1 := by
        simp [reroute, hm, ha]
      have hmf := mountFrom env m s hd0 hp
      show (drain env (reroute env p s).1).1.dom = [] ∨
        ∃ a2, (drain env (reroute env p s).1).1.activeApp = some a2 ∧
          (drain env (reroute env p s).1).1.dom = [(a2.container, a2.name)] ∧
          env.containerOk a2.container = true
      rw [hre]
      rcases hmf with h1 | ⟨h1, h2, h3⟩
      · exact Or.inl h1
      · exact Or.inr ⟨m, h1, h2, h3⟩
    · by_cases hn : a.name = m.name
      · have h1 : reroute env p s = (s, []) := by simp [reroute, hm, ha, hn]
        have h2 : (rerouteToCompletion env p s).1 = s := by
          show (drain env (reroute env p s).1).1 = s
          rw [h1, drain_nil env s hp]
        rw [h2]; exact hdom
      · have hre : (reroute env p s).1 =
            (loadPhase1 env m { (unmountApp env a s).1 with activeApp := some m }).1 := by
          simp [reroute, hm, ha, hn]
        have hd : (unmountApp env a s).1.dom = [] := by
          rcases hdom with h | ⟨a', ha', hd1, hca⟩
          · exact unmountApp_dom_nil env a s h
          · rw [ha] at ha'
            cases ha'
            exact unmountApp_dom_clear env a s hd1 hca
        have hp' : (unmountApp env a s).1.pending = [] := by
          rw [unmountApp_pending]; exact hp
        have hmf := mountFrom env m (unmountApp env a s).1 hd hp'
        show (drain env (reroute env p s).1).1.dom = [] ∨
          ∃ a2, (drain env (reroute env p s).1).1.activeApp = some a2 ∧
            (drain env (reroute env p s).1).1.dom = [(a2.container, a2.name)] ∧
            env.containerOk a2.container = true
        rw [hre]
        rcases hmf with h1 | ⟨h1, h2, h3⟩
        · exact Or.inl h1
        · exact Or.inr ⟨m, h1, h2, h3⟩

lemma runSeq_inv (env : Env) (paths : List String) :
    ∀ s : MicroState, SeqInv env s → SeqInv env (runSeq env paths s).1 := by
  induction paths with
  | nil => intro s h; exact h
  | cons p rest ih =>
    intro s h
    exact ih (rerouteToCompletion env p s).1 (step_inv env p s h)

lemma assocFind_storeSet_self (k : String) (v : JSValue) (st : Store) :
    assocFind k (storeSet k v st) = some v := by
  induction st with
  | nil => simp [storeSet, assocFind]
  | cons e rest ih =>
    by_cases h : e.1 = k
    · simp [storeSet, h, assocFind]
    · simp [storeSet, h, assocFind, ih]

lemma assocFind_appStoreSet_self (n k : String) (v : JSValue) (l : List (String × Store)) :
    assocFind n (appStoreSet n k v l) =
      some (storeSet k v ((assocFind n l).getD [])) := by
  induction l with
  | nil => simp [appStoreSet, assocFind]
  | cons e rest ih =>
    by_cases h : e.1 = n
    · simp [appStoreSet, h, assocFind]
    · simp [appStoreSet, h, assocFind, ih]

lemma assocFind_appStoreSet_ne (n k n' : String) (v : JSValue)
    (l : List (String × Store)) (h : n' ≠ n) :
    assocFind n' (appStoreSet n k v l) = assocFind n' l := by
  induction l with
  | nil => simp [appStoreSet, assocFind, Ne.symm h]
  | cons e rest ih =>
    by_cases he : e.1 = n
    · simp [appStoreSet, he, assocFind, Ne.symm h]
    · simp [appStoreSet, he, assocFind, ih]

lemma no_mount_then_no_unmount_ordered (t1 t2 : List Event)
    (h1 : ∀ e ∈ t1, isMountEv e = false) (h2 : ∀ e ∈ t2, isUnmountEv e = false) :
    unmountsPrecedeMounts (t1 ++ t2) = true := by
  induction t1 with
  | nil =>
    induction t2 with
    | nil => rfl
    | cons e rest ih =>
      simp only [List.nil_append, unmountsPrecedeMounts, Bool.and_eq_true]
      constructor
      · rcases he : isMountEv e with _ | _
        · simp
        · simp only [Bool.not_true, Bool.false_or, List.all_eq_true]
          intro x hx
          simp [h2 x (List.mem_cons_of_mem e hx)]
      · simpa using ih (fun e he => h2 e (List.mem_cons_of_mem _ he))
  | cons e rest ih =>
    simp only [List.cons_append, unmountsPrecedeMounts, Bool.and_eq_true]
    constructor
    · simp [h1 e (List.mem_cons_self e rest)]
    · exact ih (fun x hx => h1 x (List.mem_cons_of_mem e hx))

/-- Claim C1 counterexample: the code does not queue navigations, so two
in-flight `loadAndMountApp` continuations can both settle.  Navigating to
`/a` and then to `/b` before `/a`'s entry fetch has resolved leaves BOTH
applications' content attached in the document (both mount hooks fire), so
more than one application is mounted at an observation point reachable in
the code. -/
theorem c1_two_apps_mounted_counterexample :
    mountedNames (runActs env0
      [NavAct.nav "/a", NavAct.nav "/b", NavAct.complete 0, NavAct.complete 0]
      (initState [appA, appB])).1 = ["a", "b"] ∧
    ¬ (mountedNames (runActs env0
      [NavAct.nav "/a", NavAct.nav "/b", NavAct.complete 0, NavAct.complete 0]
      (initState [appA, appB])).1).length ≤ 1 := by
  constructor
  · rfl
  · decide

/-- Claim C1 (amended): when every navigation notification is processed to
completion before the next arrives (no overlapping in-flight loads), at most
one registered application's content is mounted in the document at every
observation point.  The source tracks no lifecycle-status field; being
mounted in the document is the claim's own equivalent reading. -/
theorem c1_sequential_single_active (env : Env) (apps : List App) (paths : List String) :
    (mountedNames (runSeq env paths (initState apps)).1).length ≤ 1 := by
  have h := runSeq_inv env paths (initState apps) ⟨rfl, Or.inl rfl⟩
  rcases h.2 with hd | ⟨a, _, hd, _⟩ <;> simp [mountedNames, hd]

/-- Claim C2: when a navigation switches from active application `a` to a
distinct matched application `m` (previous load settled, containers exist,
hooks installed), the processing of that one notification first invokes
`a`'s unmount hook, then fetches `m`'s entry, and only then invokes `m`'s
mount hook: every unmount event strictly precedes every mount event in the
trace.  Hooks are invoked synchronously by the source (no `await`), so
invocation and completion coincide in the model. -/
theorem c2_unmount_before_mount (env : Env) (p : String) (s : MicroState) (a m : App)
    (hp : s.pending = [])
    (ha : s.activeApp = some a)
    (hm : matchedApp s.apps p = some m)
    (hn : a.name ≠ m.name)
    (hca : env.containerOk a.container = true)
    (hsb : a.name ∈ s.sandboxNames)
    (hua : env.hasUnmount a.name = true)
    (hcm : env.containerOk m.container = true)
    (hmm : env.hasMount m.name = true) :
    (rerouteToCompletion env p s).2 =
      [Event.unmountHook a.name, Event.fetch m.entry, Event.mountHook m.name] ∧
    unmountsPrecedeMounts (rerouteToCompletion env p s).2 = true := by
  have ht : (rerouteToCompletion env p s).2 =
      [Event.unmountHook a.name, Event.fetch m.entry, Event.mountHook m.name] := by
    simp [rerouteToCompletion, reroute, hm, ha, hn, unmountApp, hca, hsb, hua,
      loadPhase1, hcm, drain, hp, drainGo, completeBody, hmm]
  refine ⟨ht, ?_⟩
  rw [ht]
  rfl

/-- Claim C2 witness: the scenario run — `a` mounted, navigate to `/b`. -/
theorem c2_unmount_before_mount_witness :
    (rerouteToCompletion env0 "/b" sAB).2 =
      [Event.unmountHook appA.name, Event.fetch appB.entry, Event.mountHook appB.name] ∧
    unmountsPrecedeMounts (rerouteToCompletion env0 "/b" sAB).2 = true :=
  c2_unmount_before_mount env0 "/b" sAB appA appB (by decide) (by decide) (by decide)
    (by decide) (by decide) (by decide) (by decide) (by decide) (by decide)

/-- Claim C4: a navigation whose match carries the same name as the active
application returns from `reroute` before any teardown (no events, state
untouched), and processing the same path twice in a row equals processing it
once — the second notification is always a no-op. -/
theorem c4_same_route_noop_idempotent (env : Env) (p : String) (s : MicroState)
    (a m : App) :
    (s.activeApp = some a → matchedApp s.apps p = some m → a.name = m.name →
      reroute env p s = (s, [])) ∧
    reroute env p (reroute env p s).1 = ((reroute env p s).1, []) := by
  constructor
  · intro ha hm hn
    simp [reroute, hm, ha, hn]
  · rcases hm : matchedApp s.apps p with _ | m'
    · have h1 : reroute env p s = (s, []) := by simp [reroute, hm]
      rw [h1]
      exact h1
    · obtain ⟨a', ha', hn'⟩ := reroute_active_name env p s m' hm
      have hm2 : matchedApp (reroute env p s).1.apps p = some m' := by
        rw [reroute_apps]; exact hm
      generalize hg : (reroute env p s).1 = t at ha' hm2 ⊢
      simp [reroute, hm2, ha', hn']

/-- Claim C4 witness: with `appA` active, a repeated `/a` notification is a
no-op. -/
theorem c4_same_route_noop_idempotent_witness :
    reroute env0 "/a" sAB = (sAB, []) :=
  (c4_same_route_noop_idempotent env0 "/a" sAB appA appA).1 (by decide) (by decide)
    (by decide)

/-- Claim C5 counterexample: with `appA` active and mounted, a navigation to
`/zzz` (which matches no registered application) leaves the state completely
unchanged — the active application is NOT unmounted and the active reference
is NOT cleared, contradicting the claim's `matched`-absent case. -/
theorem c5_no_match_keeps_active_counterexample :
    reroute env0 "/zzz" (rerouteToCompletion env0 "/a" (initState [appA])).1 =
      ((rerouteToCompletion env0 "/a" (initState [appA])).1, []) ∧
    (rerouteToCompletion env0 "/a" (initState [appA])).1.activeApp = some appA ∧
    mountedNames (rerouteToCompletion env0 "/a" (initState [appA])).1 = ["a"] := by
  refine ⟨?_, ?_, ?_⟩ <;> rfl

/-- Claim C5 (amended): when no descriptor matches, `reroute` returns
immediately and the active instance stays active and mounted; the claimed
unmount behaviour (hook invoked first, the container content and sandbox
entry removed, active reference handed to the new match) happens exactly
when a matched descriptor's name differs from the active name. -/
theorem c5_unmount_only_on_distinct_match (env : Env) (p : String) (s : MicroState)
    (a m : App) :
    (matchedApp s.apps p = none → reroute env p s = (s, [])) ∧
    (s.activeApp = some a → matchedApp s.apps p = some m → a.name ≠ m.name →
      env.containerOk a.container = true →
      a.name ∈ s.sandboxNames →
      env.hasUnmount a.name = true →
      (reroute env p s).2.head? = some (Event.unmountHook a.name) ∧
      (reroute env p s).1.activeApp = some m ∧
      (∀ x, (a.container, x) ∉ (reroute env p s).1.dom) ∧
      a.name ∉ (reroute env p s).1.sandboxNames) := by
  constructor
  · intro hm; simp [reroute, hm]
  · intro ha hm hn hca hsb hua
    by_cases hcm : env.containerOk m.container <;>
      refine ⟨?_, ?_, ?_, ?_⟩ <;>
      simp [reroute, hm, ha, hn, unmountApp, hca, hsb, hua, loadPhase1, hcm,
        clearDom, List.mem_filter]

/-- Claim C5 witness: the amended behaviour on the scenario run. -/
theorem c5_unmount_only_on_distinct_match_witness :
    reroute env0 "/zzz" sAB = (sAB, []) ∧
    (reroute env0 "/b" sAB).2.head? = some (Event.unmountHook appA.name) ∧
    (reroute env0 "/b" sAB).1.activeApp = some appB ∧
    (appA.container, appA.name) ∉ (reroute env0 "/b" sAB).1.dom ∧
    appA.name ∉ (reroute env0 "/b" sAB).1.sandboxNames := by
  have h2 := (c5_unmount_only_on_distinct_match env0 "/b" sAB appA appB).2
    (by decide) (by decide) (by decide) (by decide) (by decide) (by decide)
  exact ⟨(c5_unmount_only_on_distinct_match env0 "/zzz" sAB appA appB).1 (by decide),
    h2.1, h2.2.1, h2.2.2.1 appA.name, h2.2.2.2⟩

/-- Claim C6 counterexample: registering the same descriptor (same name)
twice succeeds and appends again — the registry afterwards holds the name
twice, instead of the claimed failure with an unchanged registry.
`registerMicroApps` is total and has no error path at all. -/
theorem c6_duplicate_name_accepted_counterexample :
    registerMicroApps appA (registerMicroApps appA []) = [appA, appA] ∧
    (registerMicroApps appA (registerMicroApps appA [])).map App.name = ["a", "a"] := by
  exact ⟨rfl, rfl⟩

/-- Claim C6 (amended): every registration — duplicate name or not — appends
the descriptor, so registering any batch in order yields exactly the prior
registry extended by the batch in registration order (append-only,
registration-ordered, no duplicate check, no `DuplicateNameError`). -/
theorem c6_register_appends_unconditionally (l apps : List App) :
    registerAll l apps = apps ++ l := by
  induction l generalizing apps with
  | nil => simp [registerAll]
  | cons a rest ih =>
    show registerAll rest (registerMicroApps a apps) = apps ++ a :: rest
    rw [ih]
    simp [registerMicroApps]

/-- Claim C7 counterexample: after a second `start()` call each
`pushState` invocation fires `reroute` twice (after one call it fires
once) — the wrapping stacks, so route changes are double-fired. -/
theorem c7_double_start_double_notification_counterexample :
    rerouteCallsPerInvoke ((startN 2 initRouter).pushState) = 2 ∧
    rerouteCallsPerInvoke ((startN 1 initRouter).pushState) = 1 := by
  exact ⟨rfl, rfl⟩

/-- Claim C7 (amended): `start()` is not idempotent: after `n` calls,
`pushState` and `replaceState` carry `n` stacked wrappers — each invocation
fires `n` route-change notifications — and `n` `popstate` listeners are
registered. -/
theorem c7_start_wrapping_stacks (n : Nat) :
    rerouteCallsPerInvoke ((startN n initRouter).pushState) = n ∧
    rerouteCallsPerInvoke ((startN n initRouter).replaceState) = n ∧
    (startN n initRouter).popstateListeners = n := by
  have key : ∀ k : Nat, ∀ r : RouterState,
      rerouteCallsPerInvoke ((startN k r).pushState) =
        k + rerouteCallsPerInvoke r.pushState ∧
      rerouteCallsPerInvoke ((startN k r).replaceState) =
        k + rerouteCallsPerInvoke r.replaceState ∧
      (startN k r).popstateListeners = k + r.popstateListeners := by
    intro k
    induction k with
    | zero => intro r; simp [startN]
    | succ k ih =>
      intro r
      obtain ⟨h1, h2, h3⟩ := ih (startRouterEffect r)
      refine ⟨?_, ?_, ?_⟩ <;>
        simp [startN, startRouterEffect, patchRouter, rerouteCallsPerInvoke]
          at h1 h2 h3 ⊢ <;> omega
  obtain ⟨h1, h2, h3⟩ := key n initRouter
  simpa [initRouter, rerouteCallsPerInvoke] using ⟨h1, h2, h3⟩

/-- Claim C10 counterexample: navigating `/a`, `/b`, `/a` sequentially
fetches `appA`'s entry document twice — every re-activation re-fetches; no
instance is cached (and the source has no bootstrap hook at all). -/
theorem c10_refetch_on_reactivation_counterexample :
    ((runSeq env0 ["/a", "/b", "/a"] (initState [appA, appB])).2.count
      (Event.fetch "http://x/a")) = 2 := by
  decide

/-- Claim C10 (amended): every activation of a matched application (whether
no application or a differently-named one was active) starts a fresh fetch
of its entry document within that very `reroute` call — nothing is cached
between activations. -/
theorem c10_every_activation_fetches (env : Env) (p : String) (s : MicroState)
    (a m : App) :
    (s.activeApp = none → matchedApp s.apps p = some m →
      env.containerOk m.container = true →
      Event.fetch m.entry ∈ (reroute env p s).2) ∧
    (s.activeApp = some a → matchedApp s.apps p = some m → a.name ≠ m.name →
      env.containerOk m.container = true →
      Event.fetch m.entry ∈ (reroute env p s).2) := by
  constructor
  · intro ha hm hcm
    simp [reroute, hm, ha, loadPhase1, hcm]
  · intro ha hm hn hcm
    have h2 : (reroute env p s).2 =
        (unmountApp env a s).2 ++ [Event.fetch m.entry] := by
      simp [reroute, hm, ha, hn, loadPhase1, hcm]
    rw [h2]
    exact List.mem_append_right _ (by simp)

/-- Claim C10 witness: activating `appB` over active `appA` fetches
`appB`'s entry. -/
theorem c10_every_activation_fetches_witness :
    Event.fetch appB.entry ∈ (reroute env0 "/b" sAB).2 :=
  (c10_every_activation_fetches env0 "/b" sAB appA appB).2 (by decide) (by decide)
    (by decide) (by decide)

/-- Claim C3 counterexample: the `set` handler's guard is
`appName && typeof value !== 'function'`, so a FUNCTION value written through
application `appA`'s sandbox view lands on the shared `sandboxWindow` target,
not in `appA`'s private store — and is then observable when reading the same
property through application `appB`'s sandbox view (it was `undefined` there
before the write). -/
theorem c3_function_write_leaks_counterexample :
    proxyGet (some "appB") "leak" (createSandbox []) = GetResult.val JSValue.undef ∧
    proxyGet (some "appB") "leak"
        (proxySet (some "appA") "leak" (JSValue.fnV 7) (createSandbox [])) =
      GetResult.val (JSValue.fnV 7) ∧
    assocFind "appA"
        (proxySet (some "appA") "leak" (JSValue.fnV 7) (createSandbox [])).appStores =
      none := by
  exact ⟨rfl, rfl, rfl⟩

/-- Claim C3 (amended): for every NON-function value, a write through one
application's sandbox view is recorded in that application's private store
(reading it back yields the value), is invisible to every other
application's sandbox view (all of that view's reads are unchanged), and
never touches the host's true global context.  Function-valued writes land
on the shared sandbox window copy instead (see the counterexample), though
still not on the host's true global context. -/
theorem c3_nonfunction_write_isolated (s : SandboxState) (A B k q : String)
    (v : JSValue) (hv : v.isFunctionV = false) (hAB : B ≠ A) :
    proxyGet (some A) k (proxySet (some A) k v s) = GetResult.val v ∧
    proxyGet (some B) q (proxySet (some A) k v s) = proxyGet (some B) q s ∧
    (proxySet (some A) k v s).hostWindow = s.hostWindow := by
  refine ⟨?_, ?_, ?_⟩
  · simp [proxySet, hv, proxyGet, assocFind_appStoreSet_self, assocFind_storeSet_self]
  · simp [proxySet, hv, proxyGet, assocFind_appStoreSet_ne _ _ _ _ _ hAB]
  · simp [proxySet, hv]

/-- Claim C3 witness: a concrete non-function write through `appA`'s view. -/
theorem c3_nonfunction_write_isolated_witness :
    proxyGet (some "appA") "x"
        (proxySet (some "appA") "x" (JSValue.strV "secret") (createSandbox [])) =
      GetResult.val (JSValue.strV "secret") ∧
    proxyGet (some "appB") "x"
        (proxySet (some "appA") "x" (JSValue.strV "secret") (createSandbox [])) =
      proxyGet (some "appB") "x" (createSandbox []) ∧
    (proxySet (some "appA") "x" (JSValue.strV "secret") (createSandbox [])).hostWindow =
      (createSandbox []).hostWindow :=
  c3_nonfunction_write_isolated (createSandbox []) "appA" "appB" "x" "x"
    (JSValue.strV "secret") (by decide) (by decide)

/-- Claim C8 counterexample: on markup with two external script tags and one
inline script, `parseHtml` returns only the two external references — the
inline script is not extracted (the script regex requires a double-quoted
`src` attribute), so the claimed three references in document order do not
appear; moreover the relative reference `./a.js` is returned verbatim, not
resolved to an absolute URI against the entry location. -/
theorem c8_inline_script_ignored_counterexample :
    parseHtmlScripts htmlEx = ["./a.js", "b.js"] ∧
    ¬ (parseHtmlScripts htmlEx).length = 3 := by
  exact ⟨rfl, by decide⟩

/-- Claim C8 (amended): `parseHtml` extracts only external, double-quoted
`src` script references and external `rel="stylesheet"` link references,
each list in document order and verbatim (no resolution against the entry
location); inline scripts and inline style blocks are ignored. -/
theorem c8_external_only_in_order :
    parseHtml htmlEx = (["./a.js", "b.js"], []) ∧
    parseHtml htmlEx2 = (["u/v.js"], ["s.css"]) := by
  exact ⟨rfl, rfl⟩

/-- Claim C9 counterexample: a media-query block is NOT returned
byte-identical apart from whitespace: the replacement runs over every
`([^{]+)({` match, and while the `@media …` selector line itself is left
alone, the rule nested INSIDE the media block is prefixed with
`.micro-app-app-a`, a non-whitespace change. -/
theorem c9_media_block_rewritten_counterexample :
    (scopedCss mediaEx "app-a").toList.filter (fun c => !c.isWhitespace) ≠
      mediaEx.toList.filter (fun c => !c.isWhitespace) := by
  decide

/-- Claim C9 (amended): a top-level rule's selector is prefixed with the
class `.micro-app-<appName>` (not `.<namespace>`; an extra space is inserted
before the brace), and selectors containing `@media`/`@keyframes` are left
unchanged while the rules nested inside their blocks are prefixed as well,
so an at-rule block does not pass through byte-identical. -/
theorem c9_scope_behavior :
    scopedCss ".btn \x7b color: red; \x7d" "app-a" =
      ".micro-app-app-a .btn  \x7b color: red; \x7d" ∧
    scopedCss mediaEx "app-a" =
      "@media screen \x7b.micro-app-app-a  .btn  \x7b color: red; \x7d \x7d" := by
  exact ⟨rfl, rfl⟩
